import Mathlib

/-!
Verification development for the Videomass repository
(`videomass/vdms_panels/concatenate.py` and
`videomass/vdms_panels/sequence_to_video.py`).

The first part embeds the stream-compatibility check
`compare_media_param` of `concatenate.py` over a model of Python
dictionaries (association lists with first-occurrence update, which is
what repeated `d[k] = v` assignments produce, together with
order-independent dictionary equality).

The second part embeds the slideshow timing computations
`build_command_slideshow`, `build_command_loop_image` and
`get_args_line` of `sequence_to_video.py`.
-/

/-- Python dictionary assignment `d[k] = v` on an association list kept in
insertion order: an existing key keeps its position and gets the new value,
a new key is appended at the end. -/
def dictInsert {α β : Type} [DecidableEq α] : List (α × β) → α → β → List (α × β)
  | [], k, v => [(k, v)]
  | p :: rest, k, v => if p.1 = k then (k, v) :: rest else p :: dictInsert rest k v

/-- Python dictionary lookup `d[k]` (first binding of the key). -/
def dictLookup {α β : Type} [DecidableEq α] : List (α × β) → α → Option β
  | [], _ => none
  | p :: rest, k => if p.1 = k then some p.2 else dictLookup rest k

/-- The keys of an association list. -/
def dictKeys {α β : Type} (d : List (α × β)) : List α := d.map Prod.fst

/-- Python dictionary equality `d1 == d2`: same number of bindings and every
binding of the first occurs in the second, independently of order.  For
lists with no duplicate keys (the invariant maintained by `dictInsert`)
this is exactly CPython's unordered key-value comparison. -/
def dictEq {α β : Type} [DecidableEq α] [DecidableEq β]
    (a b : List (α × β)) : Bool :=
  a.length == b.length && a.all (fun p => b.any (fun q => decide (p = q)))

/-- One stream record of an FFprobe report, with the fields read by
`compare_media_param` and `build_command_slideshow`.  `codec_type` is the
raw string of the JSON report; `sample_rate` is kept as the raw JSON
string exactly as the Python code copies it. -/
structure StreamInfo where
  index : Nat
  codec_type : String
  codec_name : String
  width : Nat
  height : Nat
  sample_rate : String
deriving DecidableEq

/-- One probed file: the `format.filename` entry and the `streams` array of
the FFprobe report, in probe order. -/
structure ProbedFile where
  filename : String
  streams : List StreamInfo
deriving DecidableEq

/-- The `f"{items.get('width')}x{items.get('height')}"` string built at
concatenate.py line 54. -/
def sizeStr (w h : Nat) : String := Nat.repr w ++ "x" ++ Nat.repr h

/-- One iteration of the inner `for items in streams.get('streams')` loop of
`compare_media_param` (concatenate.py lines 51-58): a video stream stores
`[codec_name, "WxH"]` under its index, an audio stream stores
`[codec_name, sample_rate]` under its index, any other stream is skipped.
The two `if` tests are sequential, exactly as in the source. -/
def sigStep (acc : List (Nat × List String)) (items : StreamInfo) :
    List (Nat × List String) :=
  let acc1 := if items.codec_type = "video"
    then dictInsert acc items.index [items.codec_name, sizeStr items.width items.height]
    else acc
  if items.codec_type = "audio"
    then dictInsert acc1 items.index [items.codec_name, items.sample_rate]
    else acc1

/-- The per-file signature dictionary `com[name]` built by
`compare_media_param` for one probed file. -/
def fileSig (f : ProbedFile) : List (Nat × List String) :=
  f.streams.foldl sigStep []

/-- The outer dictionary `com` of `compare_media_param`: filename to
signature, in file order (a repeated filename is reset to `{}` and refilled,
so its final value is the signature of the last file with that name). -/
def buildCom (data : List ProbedFile) : List (String × List (Nat × List String)) :=
  data.foldl (fun acc f => dictInsert acc f.filename (fileSig f)) []

/-- Error message of concatenate.py line 45. -/
def msgAtLeastTwo : String :=
  "At least two files are required to perform concatenation."

/-- Error message of concatenate.py line 61. -/
def msgInvalidData : String := "Invalid data found"

/-- Error message of concatenate.py lines 65-67. -/
def msgMismatch : String :=
  "The files do not have the same \"codec_types\", " ++
  "same \"sample_rate\" or same \"width\" or \"height\". " ++
  "Unable to proceed."

/-- `compare_media_param` (concatenate.py lines 35-68).  Returns the error
message when a problem is found and `none` (Python `None`) otherwise.
`totest` is the first value of `com` and every value is compared against it
with Python dictionary equality. -/
def compare_media_param (data : List ProbedFile) : Option String :=
  if data.length = 1 then some msgAtLeastTwo
  else
    match buildCom data with
    | [] => some msgInvalidData
    | first :: rest =>
      if (first :: rest).all (fun p => dictEq p.2 first.2)
      then none
      else some msgMismatch

/-! ## Slideshow timing (`sequence_to_video.py`)

The panel state read by `build_command_slideshow` and
`build_command_loop_image`.  Durations are the integer millisecond values
denoted by the panel's `HH:MM:SS.mmm` clock strings; the unit-conversion
helpers `get_milliseconds`, `get_seconds` and `milliseconds2clock` live in
`videomass/vdms_utils/utils.py`, which is not part of the sources under
review, so they are modelled from the spec below. -/

structure SlideState where
  /-- `len(self.parent.file_src)`: number of loaded image files. -/
  fileCount : Nat
  /-- `self.ckbx_audio.IsChecked()`: an audio track is attached. -/
  audioChecked : Bool
  /-- `self.opt["Shortest"]`: either `("", "Disabled")` or
  `("-shortest", "Enabled")` (sequence_to_video.py lines 360-392). -/
  shortest : String × String
  /-- `self.opt["ADuration"]`: probed audio duration in milliseconds. -/
  aDuration : Int
deriving DecidableEq

/-- The outputs of a `build_command_*` call that the claims are about:
the returned `duration`, and the `Clock`, `Interval` and `Preinput`
entries written into `self.opt`. -/
structure SlideArgs where
  duration : Int
  clock : String
  interval : Int
  preinput : String
deriving DecidableEq

/-- Modelled from the spec: rounding a millisecond count to the nearest
whole second (`round(get_seconds(timeline))` and `round(ms / 1000)` in the
source; `get_seconds` is in the out-of-scope utils module).  The spec's
rounding rule permits any deterministic round-half convention; this one is
round-half-up, `⌊ms / 1000 + 1 / 2⌋` computed with floor division. -/
def roundMsToSec (ms : Int) : Int := (2 * ms + 1000).fdiv 2000

/-- Zero-padding of a number to at least two digits, as the `%02d` format. -/
def pad2 (n : Nat) : String :=
  if n < 10 then "0" ++ Nat.repr n else Nat.repr n

/-- Zero-padding of a number to at least three digits, as the fractional
part of the `%06.3f` format. -/
def pad3 (n : Nat) : String :=
  if n < 10 then "00" ++ Nat.repr n
  else if n < 100 then "0" ++ Nat.repr n
  else Nat.repr n

/-- Modelled from the spec: `milliseconds2clock` of the out-of-scope utils
module, formatting a millisecond count as a zero-padded `HH:MM:SS.mmm`
string.  The spec defines it for non-negative inputs only; a negative input
is clamped to zero here. -/
def milliseconds2clock (ms : Int) : String :=
  let n := ms.toNat
  pad2 (n / 3600000) ++ ":" ++ pad2 (n % 3600000 / 60000) ++ ":" ++
    pad2 (n % 60000 / 1000) ++ "." ++ pad3 (n % 1000)

/-- The framerate fragment of sequence_to_video.py line 445:
`'-framerate 1/1' if not sec else f'-framerate 1/{sec}'`. -/
def framerateFragment (sec : Int) : String :=
  if sec = 0 then "-framerate 1/1" else "-framerate 1/" ++ Int.repr sec

/-- `build_command_slideshow` (sequence_to_video.py lines 422-458),
restricted to the timing outputs.  `timeline` is the millisecond value of
the per-image clock string passed in; the branch structure, the `duration`,
`sec` and `loop` values and the `Preinput` string `f'{loop} {framerate}'`
follow the source line by line.  The `Clock` strings assigned from the
`timeline` string itself are represented by the canonical formatting of its
millisecond value. -/
def build_command_slideshow (st : SlideState) (timeline : Int) : SlideArgs :=
  if st.audioChecked then
    if st.shortest.1 ≠ "" then
      let duration := timeline * (st.fileCount : Int)
      let sec := roundMsToSec timeline
      { duration := duration, clock := milliseconds2clock duration,
        interval := sec, preinput := "" ++ " " ++ framerateFragment sec }
    else
      let clock := milliseconds2clock st.aDuration
      let sec := roundMsToSec timeline
      let loop := "-loop 1 -t " ++ clock
      { duration := st.aDuration, clock := clock,
        interval := sec, preinput := loop ++ " " ++ framerateFragment sec }
  else
    let duration := timeline * (st.fileCount : Int)
    let sec := roundMsToSec timeline
    { duration := duration, clock := milliseconds2clock duration,
      interval := sec, preinput := "" ++ " " ++ framerateFragment sec }

/-- `build_command_loop_image` (sequence_to_video.py lines 460-493),
restricted to the timing outputs.  `Preinput` is
`f'-loop 1 -t {self.opt["Clock"]}'` with the `Clock` value set in the
branch taken; the `sec` of the audio branch is `round(ADuration / 1000)`
and of the others `round(get_seconds(timeline))`, both of which are the
same nearest-second rounding of a millisecond count. -/
def build_command_loop_image (st : SlideState) (timeline : Int) : SlideArgs :=
  if st.audioChecked then
    if st.shortest.1 ≠ "" then
      { duration := timeline, clock := milliseconds2clock timeline,
        interval := roundMsToSec timeline,
        preinput := "-loop 1 -t " ++ milliseconds2clock timeline }
    else
      { duration := st.aDuration, clock := milliseconds2clock st.aDuration,
        interval := roundMsToSec st.aDuration,
        preinput := "-loop 1 -t " ++ milliseconds2clock st.aDuration }
  else
    { duration := timeline, clock := milliseconds2clock timeline,
      interval := roundMsToSec timeline,
      preinput := "-loop 1 -t " ++ milliseconds2clock timeline }

/-- `get_args_line` (sequence_to_video.py lines 551-565).  `userMs` is the
millisecond value of the timeline's fourth field `time_seq.split()[3]`; the
string test against `'00:00:00.000'` is the test for a zero duration, and a
zero duration is replaced by one second before dispatching on the
`create a static video from image` checkbox. -/
def get_args_line (st : SlideState) (userMs : Int) (staticImg : Bool) : SlideArgs :=
  let timeline := if userMs = 0 then 1000 else userMs
  if staticImg then build_command_loop_image st timeline
  else build_command_slideshow st timeline

/-- The streams that `compare_media_param` compares: codec_type video or
audio (concatenate.py lines 52 and 56). -/
def isAVStream (t : StreamInfo) : Bool :=
  t.codec_type == "video" || t.codec_type == "audio"

/-- A probed file with every stream of another codec_type removed; used to
state that such streams never affect the compatibility check. -/
def stripNonAV (f : ProbedFile) : ProbedFile :=
  ⟨f.filename, f.streams.filter isAVStream⟩

/-- Two streams that are identical except that the width or the height of a
video stream differs. -/
def geometryMismatch (t t' : StreamInfo) : Prop :=
  t.codec_type = "video" ∧ t'.codec_type = "video" ∧
  t'.index = t.index ∧ t'.codec_name = t.codec_name ∧
  t'.sample_rate = t.sample_rate ∧
  (t'.width ≠ t.width ∨ t'.height ≠ t.height)

/-- Two streams that are identical except that the sample_rate of an audio
stream differs. -/
def sampleRateMismatch (t t' : StreamInfo) : Prop :=
  t.codec_type = "audio" ∧ t'.codec_type = "audio" ∧
  t'.index = t.index ∧ t'.codec_name = t.codec_name ∧
  t'.width = t.width ∧ t'.height = t.height ∧
  t'.sample_rate ≠ t.sample_rate

/-- Decimal value of a digit character; left inverse of `Nat.digitChar` on
`0`-`9`, used to prove that decimal rendering is injective. -/
def decDigit (c : Char) : Nat :=
  if c = '0' then 0 else if c = '1' then 1 else if c = '2' then 2
  else if c = '3' then 3 else if c = '4' then 4 else if c = '5' then 5
  else if c = '6' then 6 else if c = '7' then 7 else if c = '8' then 8
  else if c = '9' then 9 else 0

/-- Decimal decoding of a digit string, most significant digit first,
starting from accumulator `a`. -/
def decodeAux (a : Nat) (l : List Char) : Nat :=
  l.foldl (fun x c => 10 * x + decDigit c) a

/-! ## Dictionary lemmas -/

theorem dictInsert_ne_nil {α β : Type} [DecidableEq α]
    (d : List (α × β)) (k : α) (v : β) : dictInsert d k v ≠ [] := by
  cases d with
  | nil => simp [dictInsert]
  | cons p rest =>
    unfold dictInsert
    split <;> simp

theorem dictLookup_dictInsert_self {α β : Type} [DecidableEq α]
    (d : List (α × β)) (k : α) (v : β) :
    dictLookup (dictInsert d k v) k = some v := by
  induction d with
  | nil => simp [dictInsert, dictLookup]
  | cons p rest ih =>
    by_cases h : p.1 = k
    · simp [dictInsert, h, dictLookup]
    · simp [dictInsert, h, dictLookup, ih]

theorem dictLookup_dictInsert_ne {α β : Type} [DecidableEq α]
    (d : List (α × β)) (k k' : α) (v : β) (h : k' ≠ k) :
    dictLookup (dictInsert d k v) k' = dictLookup d k' := by
  induction d with
  | nil =>
    simp only [dictInsert, dictLookup]
    rw [if_neg (fun hh => h hh.symm)]
  | cons p rest ih =>
    by_cases hp : p.1 = k
    · simp only [dictInsert, if_pos hp, dictLookup]
      rw [if_neg (fun hh => h hh.symm), if_neg (by rw [hp]; exact fun hh => h hh.symm)]
    · simp only [dictInsert, if_neg hp, dictLookup, ih]

theorem mem_of_dictLookup {α β : Type} [DecidableEq α]
    {d : List (α × β)} {k : α} {v : β}
    (h : dictLookup d k = some v) : (k, v) ∈ d := by
  induction d with
  | nil => simp [dictLookup] at h
  | cons p rest ih =>
    by_cases hp : p.1 = k
    · simp only [dictLookup, if_pos hp, Option.some.injEq] at h
      have : p = (k, v) := by
        cases p
        simp_all
      exact this ▸ List.mem_cons_self _ _
    · simp only [dictLookup, if_neg hp] at h
      exact List.mem_cons_of_mem _ (ih h)

theorem dictLookup_of_mem_nodup {α β : Type} [DecidableEq α]
    {d : List (α × β)} {k : α} {v : β}
    (hmem : (k, v) ∈ d) (hnd : (dictKeys d).Nodup) :
    dictLookup d k = some v := by
  induction d with
  | nil => simp at hmem
  | cons p rest ih =>
    simp only [dictKeys, List.map_cons, List.nodup_cons] at hnd
    rcases List.mem_cons.mp hmem with h | h
    · rw [← h]
      simp [dictLookup]
    · have hk : k ∈ rest.map Prod.fst := List.mem_map_of_mem Prod.fst h
      by_cases hp : p.1 = k
      · exact absurd (hp ▸ hk) hnd.1
      · simp only [dictLookup, if_neg hp]
        exact ih h hnd.2

theorem mem_dictKeys_dictInsert {α β : Type} [DecidableEq α]
    {d : List (α × β)} {k a : α} {v : β} :
    a ∈ dictKeys (dictInsert d k v) ↔ a ∈ dictKeys d ∨ a = k := by
  induction d with
  | nil => simp [dictInsert, dictKeys]
  | cons p rest ih =>
    by_cases hp : p.1 = k
    · simp only [dictInsert, if_pos hp, dictKeys, List.map_cons, List.mem_cons]
      rw [hp]
      tauto
    · simp only [dictInsert, if_neg hp, dictKeys, List.map_cons, List.mem_cons] at *
      tauto

theorem dictKeys_dictInsert_nodup {α β : Type} [DecidableEq α]
    {d : List (α × β)} (k : α) (v : β)
    (h : (dictKeys d).Nodup) : (dictKeys (dictInsert d k v)).Nodup := by
  induction d with
  | nil => simp [dictInsert, dictKeys]
  | cons p rest ih =>
    simp only [dictKeys, List.map_cons, List.nodup_cons] at h
    by_cases hp : p.1 = k
    · simp only [dictInsert, if_pos hp, dictKeys, List.map_cons, List.nodup_cons]
      exact ⟨hp ▸ h.1, h.2⟩
    · simp only [dictInsert, if_neg hp, dictKeys, List.map_cons, List.nodup_cons]
      refine ⟨fun hmem => ?_, ih h.2⟩
      rcases mem_dictKeys_dictInsert.mp hmem with h' | h'
      · exact h.1 h'
      · exact hp h'

theorem mem_dictInsert {α β : Type} [DecidableEq α]
    {d : List (α × β)} {k : α} {v : β} {p : α × β}
    (h : p ∈ dictInsert d k v) : p ∈ d ∨ p = (k, v) := by
  induction d with
  | nil => simp [dictInsert] at h; exact Or.inr h
  | cons q rest ih =>
    by_cases hq : q.1 = k
    · simp only [dictInsert, if_pos hq, List.mem_cons] at h
      rcases h with h | h
      · exact Or.inr h
      · exact Or.inl (List.mem_cons_of_mem _ h)
    · simp only [dictInsert, if_neg hq, List.mem_cons] at h
      rcases h with h | h
      · exact Or.inl (h ▸ List.mem_cons_self _ _)
      · rcases ih h with h' | h'
        · exact Or.inl (List.mem_cons_of_mem _ h')
        · exact Or.inr h'

theorem dictEq_refl {α β : Type} [DecidableEq α] [DecidableEq β]
    (a : List (α × β)) : dictEq a a = true := by
  simp only [dictEq, Bool.and_eq_true, beq_iff_eq, List.all_eq_true,
    List.any_eq_true, decide_eq_true_eq]
  exact ⟨trivial, fun p hp => ⟨p, hp, rfl⟩⟩

theorem dictEq_eq_false_of_lookup {α β : Type} [DecidableEq α] [DecidableEq β]
    {a b : List (α × β)} {k : α} {v : β}
    (ha : dictLookup a k = some v) (hnd : (dictKeys b).Nodup)
    (hb : dictLookup b k ≠ some v) : dictEq a b = false := by
  by_contra hcon
  have h' : dictEq a b = true := by
    cases hde : dictEq a b
    · exact absurd hde hcon
    · rfl
  simp only [dictEq, Bool.and_eq_true, beq_iff_eq, List.all_eq_true,
    List.any_eq_true, decide_eq_true_eq] at h'
  obtain ⟨q, hq, he⟩ := h'.2 _ (mem_of_dictLookup ha)
  exact hb (dictLookup_of_mem_nodup (he ▸ hq) hnd)

/-! ## Signature lemmas -/

theorem sigStep_video (acc : List (Nat × List String)) (t : StreamInfo)
    (hv : t.codec_type = "video") :
    sigStep acc t
      = dictInsert acc t.index [t.codec_name, sizeStr t.width t.height] := by
  unfold sigStep
  rw [if_pos hv, if_neg (by rw [hv]; decide)]

theorem sigStep_audio (acc : List (Nat × List String)) (t : StreamInfo)
    (ha : t.codec_type = "audio") :
    sigStep acc t = dictInsert acc t.index [t.codec_name, t.sample_rate] := by
  unfold sigStep
  rw [if_pos ha, if_neg (by rw [ha]; decide)]

theorem sigStep_nonAV (acc : List (Nat × List String)) (t : StreamInfo)
    (hv : t.codec_type ≠ "video") (ha : t.codec_type ≠ "audio") :
    sigStep acc t = acc := by
  unfold sigStep
  rw [if_neg hv, if_neg ha]

theorem sigStep_lookup_ne (acc : List (Nat × List String)) (t : StreamInfo)
    (k : Nat) (h : t.index ≠ k) :
    dictLookup (sigStep acc t) k = dictLookup acc k := by
  by_cases hv : t.codec_type = "video"
  · rw [sigStep_video _ _ hv, dictLookup_dictInsert_ne _ _ _ _ (Ne.symm h)]
  · by_cases ha : t.codec_type = "audio"
    · rw [sigStep_audio _ _ ha, dictLookup_dictInsert_ne _ _ _ _ (Ne.symm h)]
    · rw [sigStep_nonAV _ _ hv ha]

theorem foldl_sigStep_lookup_ne (l : List StreamInfo)
    (acc : List (Nat × List String)) (k : Nat)
    (h : ∀ s ∈ l, s.index ≠ k) :
    dictLookup (l.foldl sigStep acc) k = dictLookup acc k := by
  induction l generalizing acc with
  | nil => rfl
  | cons s rest ih =>
    rw [List.foldl_cons,
      ih _ (fun t ht => h t (List.mem_cons_of_mem _ ht)),
      sigStep_lookup_ne _ _ _ (h s (List.mem_cons_self _ _))]

theorem fileSig_lookup_video (name : String) (pre post : List StreamInfo)
    (t : StreamInfo) (hv : t.codec_type = "video")
    (hpost : ∀ s ∈ post, s.index ≠ t.index) :
    dictLookup (fileSig ⟨name, pre ++ t :: post⟩) t.index
      = some [t.codec_name, sizeStr t.width t.height] := by
  unfold fileSig
  rw [List.foldl_append, List.foldl_cons,
    foldl_sigStep_lookup_ne _ _ _ hpost,
    sigStep_video _ _ hv, dictLookup_dictInsert_self]

theorem fileSig_lookup_audio (name : String) (pre post : List StreamInfo)
    (t : StreamInfo) (ha : t.codec_type = "audio")
    (hpost : ∀ s ∈ post, s.index ≠ t.index) :
    dictLookup (fileSig ⟨name, pre ++ t :: post⟩) t.index
      = some [t.codec_name, t.sample_rate] := by
  unfold fileSig
  rw [List.foldl_append, List.foldl_cons,
    foldl_sigStep_lookup_ne _ _ _ hpost,
    sigStep_audio _ _ ha, dictLookup_dictInsert_self]

theorem sigStep_keys_nodup (acc : List (Nat × List String)) (t : StreamInfo)
    (h : (dictKeys acc).Nodup) : (dictKeys (sigStep acc t)).Nodup := by
  by_cases hv : t.codec_type = "video"
  · rw [sigStep_video _ _ hv]; exact dictKeys_dictInsert_nodup _ _ h
  · by_cases ha : t.codec_type = "audio"
    · rw [sigStep_audio _ _ ha]; exact dictKeys_dictInsert_nodup _ _ h
    · rw [sigStep_nonAV _ _ hv ha]; exact h

theorem foldl_sigStep_keys_nodup (l : List StreamInfo)
    (acc : List (Nat × List String)) (h : (dictKeys acc).Nodup) :
    (dictKeys (l.foldl sigStep acc)).Nodup := by
  induction l generalizing acc with
  | nil => exact h
  | cons s rest ih => exact ih _ (sigStep_keys_nodup _ _ h)

theorem fileSig_keys_nodup (f : ProbedFile) : (dictKeys (fileSig f)).Nodup :=
  foldl_sigStep_keys_nodup _ _ (by simp [dictKeys])

/-! ## `compare_media_param` lemmas -/

theorem mem_buildCom_aux (data : List ProbedFile)
    (acc : List (String × List (Nat × List String)))
    (p : String × List (Nat × List String))
    (hp : p ∈ data.foldl (fun acc f => dictInsert acc f.filename (fileSig f)) acc) :
    p ∈ acc ∨ ∃ f ∈ data, p.2 = fileSig f := by
  induction data generalizing acc with
  | nil => exact Or.inl hp
  | cons f rest ih =>
    rw [List.foldl_cons] at hp
    rcases ih _ hp with h | h
    · rcases mem_dictInsert h with h' | h'
      · exact Or.inl h'
      · exact Or.inr ⟨f, List.mem_cons_self _ _, by rw [h']⟩
    · obtain ⟨g, hg, he⟩ := h
      exact Or.inr ⟨g, List.mem_cons_of_mem _ hg, he⟩

theorem mem_buildCom (data : List ProbedFile)
    (p : String × List (Nat × List String)) (hp : p ∈ buildCom data) :
    ∃ f ∈ data, p.2 = fileSig f := by
  rcases mem_buildCom_aux data [] p hp with h | h
  · simp at h
  · exact h

theorem buildCom_ne_nil (data : List ProbedFile) (h : data ≠ []) :
    buildCom data ≠ [] := by
  suffices haux : ∀ (l : List ProbedFile)
      (acc : List (String × List (Nat × List String))), (acc ≠ [] ∨ l ≠ []) →
      l.foldl (fun acc f => dictInsert acc f.filename (fileSig f)) acc ≠ [] by
    exact haux data [] (Or.inr h)
  intro l
  induction l with
  | nil =>
    intro acc hacc
    rcases hacc with h' | h'
    · exact h'
    · exact absurd rfl h'
  | cons f rest ih =>
    intro acc _
    rw [List.foldl_cons]
    exact ih _ (Or.inl (dictInsert_ne_nil _ _ _))

/-- Core success lemma: at least two files, all with the same signature,
pass the check.  Shared by the permutation-invariance and the
no-comparable-streams results. -/
theorem compare_media_param_of_uniform (data : List ProbedFile)
    (h2 : 2 ≤ data.length)
    (hsig : ∀ f ∈ data, ∀ g ∈ data, fileSig f = fileSig g) :
    compare_media_param data = none := by
  unfold compare_media_param
  rw [if_neg (by omega)]
  have hne : buildCom data ≠ [] :=
    buildCom_ne_nil data (by intro h; rw [h] at h2; simp at h2)
  cases hcom : buildCom data with
  | nil => exact absurd hcom hne
  | cons first rest =>
    have hall : ((first :: rest).all fun p => dictEq p.2 first.2) = true := by
      rw [List.all_eq_true]
      intro p hp
      have hp' : p ∈ buildCom data := by rw [hcom]; exact hp
      have hf' : first ∈ buildCom data := by
        rw [hcom]; exact List.mem_cons_self _ _
      obtain ⟨f, hf, hpf⟩ := mem_buildCom data p hp'
      obtain ⟨g, hg, hfg⟩ := mem_buildCom data first hf'
      rw [hpf, hfg, hsig f hf g hg]
      exact dictEq_refl _
    show (if ((first :: rest).all fun p => dictEq p.2 first.2) = true
      then (none : Option String) else some msgMismatch) = none
    rw [if_pos hall]

theorem foldl_sigStep_filter (l : List StreamInfo)
    (acc : List (Nat × List String)) :
    (l.filter isAVStream).foldl sigStep acc = l.foldl sigStep acc := by
  induction l generalizing acc with
  | nil => rfl
  | cons s rest ih =>
    by_cases h : isAVStream s = true
    · rw [List.filter_cons_of_pos h, List.foldl_cons, List.foldl_cons, ih]
    · have h' : ¬(s.codec_type = "video") ∧ ¬(s.codec_type = "audio") := by
        simpa [isAVStream] using h
      rw [List.filter_cons_of_neg (by simpa using h), List.foldl_cons,
        sigStep_nonAV _ _ h'.1 h'.2, ih]

theorem fileSig_stripNonAV (f : ProbedFile) :
    fileSig (stripNonAV f) = fileSig f :=
  foldl_sigStep_filter f.streams []

theorem buildCom_map_stripNonAV (data : List ProbedFile) :
    buildCom (data.map stripNonAV) = buildCom data := by
  suffices haux : ∀ (l : List ProbedFile)
      (acc : List (String × List (Nat × List String))),
      (l.map stripNonAV).foldl
          (fun acc f => dictInsert acc f.filename (fileSig f)) acc
        = l.foldl (fun acc f => dictInsert acc f.filename (fileSig f)) acc by
    exact haux data []
  intro l
  induction l with
  | nil => intro acc; rfl
  | cons f rest ih =>
    intro acc
    rw [List.map_cons, List.foldl_cons, List.foldl_cons]
    have hstep : dictInsert acc (stripNonAV f).filename (fileSig (stripNonAV f))
        = dictInsert acc f.filename (fileSig f) := by
      rw [fileSig_stripNonAV]; rfl
    rw [hstep, ih]

theorem foldl_sigStep_no_av (l : List StreamInfo)
    (acc : List (Nat × List String))
    (h : ∀ t ∈ l, t.codec_type ≠ "video" ∧ t.codec_type ≠ "audio") :
    l.foldl sigStep acc = acc := by
  induction l generalizing acc with
  | nil => rfl
  | cons s rest ih =>
    rw [List.foldl_cons,
      sigStep_nonAV _ _ (h s (List.mem_cons_self _ _)).1
        (h s (List.mem_cons_self _ _)).2,
      ih _ (fun t ht => h t (List.mem_cons_of_mem _ ht))]

theorem fileSig_of_no_av (f : ProbedFile)
    (h : ∀ t ∈ f.streams, t.codec_type ≠ "video" ∧ t.codec_type ≠ "audio") :
    fileSig f = [] :=
  foldl_sigStep_no_av f.streams [] h

/-! ## Claim theorems for the compatibility checker -/

/-- C3 counterexample: on the empty sequence `compare_media_param` returns
the "Invalid data found" message, not the "at least two files" message the
claim requires for every sequence of fewer than two files. -/
theorem empty_input_not_insufficient :
    compare_media_param [] = some msgInvalidData ∧
    msgInvalidData ≠ msgAtLeastTwo := by
  constructor
  · decide
  · decide

/-- C3 (amended): every single-element sequence fails with the
"at least two files are required" error, while the empty sequence fails
with the "Invalid data found" error instead. -/
theorem short_input_errors :
    (∀ f : ProbedFile, compare_media_param [f] = some msgAtLeastTwo) ∧
    compare_media_param [] = some msgInvalidData := by
  constructor
  · intro f
    unfold compare_media_param
    have h1 : ([f] : List ProbedFile).length = 1 := rfl
    rw [if_pos h1]
  · decide

/-- C5: for every sequence of at least two probed files whose members all
yield the same compatibility signature, `compare_media_param` returns
success (`none`), and the outcome is unchanged under any permutation of
the sequence. -/
theorem compare_uniform_success_perm (data data' : List ProbedFile)
    (hperm : data.Perm data') (h2 : 2 ≤ data.length)
    (hsig : ∀ f ∈ data, ∀ g ∈ data, fileSig f = fileSig g) :
    compare_media_param data = none ∧ compare_media_param data' = none := by
  refine ⟨compare_media_param_of_uniform data h2 hsig,
    compare_media_param_of_uniform data' ?_ ?_⟩
  · rw [← hperm.length_eq]; exact h2
  · intro f hf g hg
    exact hsig f (hperm.mem_iff.mpr hf) g (hperm.mem_iff.mpr hg)

/-- C5 witness: two files with identical streams, in both orders. -/
theorem compare_uniform_success_perm_witness :
    (([⟨"a", [⟨0, "video", "h264", 640, 480, ""⟩]⟩,
       ⟨"b", [⟨0, "video", "h264", 640, 480, ""⟩]⟩] : List ProbedFile).Perm
      [⟨"b", [⟨0, "video", "h264", 640, 480, ""⟩]⟩,
       ⟨"a", [⟨0, "video", "h264", 640, 480, ""⟩]⟩] ∧
     2 ≤ ([⟨"a", [⟨0, "video", "h264", 640, 480, ""⟩]⟩,
       ⟨"b", [⟨0, "video", "h264", 640, 480, ""⟩]⟩] : List ProbedFile).length) ∧
    compare_media_param
      [⟨"a", [⟨0, "video", "h264", 640, 480, ""⟩]⟩,
       ⟨"b", [⟨0, "video", "h264", 640, 480, ""⟩]⟩] = none ∧
    compare_media_param
      [⟨"b", [⟨0, "video", "h264", 640, 480, ""⟩]⟩,
       ⟨"a", [⟨0, "video", "h264", 640, 480, ""⟩]⟩] = none :=
  ⟨⟨by decide, by decide⟩,
    compare_uniform_success_perm _ _ (by decide) (by decide) (by decide)⟩

/-- C7: files containing no video or audio stream all produce the empty
signature, so any sequence of at least two of them passes the check; and
streams whose codec_type is neither video nor audio never affect the
result (removing them from every file leaves the result unchanged). -/
theorem compare_no_av_success (data : List ProbedFile) (h2 : 2 ≤ data.length)
    (hna : ∀ f ∈ data, ∀ t ∈ f.streams,
      t.codec_type ≠ "video" ∧ t.codec_type ≠ "audio") :
    compare_media_param data = none ∧
    ∀ d : List ProbedFile,
      compare_media_param (d.map stripNonAV) = compare_media_param d := by
  constructor
  · apply compare_media_param_of_uniform data h2
    intro f hf g hg
    rw [fileSig_of_no_av f (hna f hf), fileSig_of_no_av g (hna g hg)]
  · intro d
    unfold compare_media_param
    rw [List.length_map, buildCom_map_stripNonAV]

/-- C7 witness: two files holding only a subtitle and a data stream. -/
theorem compare_no_av_success_witness :
    (2 ≤ ([⟨"a", [⟨0, "subtitle", "srt", 0, 0, ""⟩]⟩,
       ⟨"b", [⟨0, "data", "bin", 0, 0, ""⟩]⟩] : List ProbedFile).length ∧
     ∀ f ∈ ([⟨"a", [⟨0, "subtitle", "srt", 0, 0, ""⟩]⟩,
       ⟨"b", [⟨0, "data", "bin", 0, 0, ""⟩]⟩] : List ProbedFile),
       ∀ t ∈ f.streams, t.codec_type ≠ "video" ∧ t.codec_type ≠ "audio") ∧
    compare_media_param
      [⟨"a", [⟨0, "subtitle", "srt", 0, 0, ""⟩]⟩,
       ⟨"b", [⟨0, "data", "bin", 0, 0, ""⟩]⟩] = none :=
  ⟨⟨by decide, by decide⟩,
    (compare_no_av_success _ (by decide) (by decide)).1⟩

/-! ## Injectivity of the decimal rendering used in `sizeStr` -/

theorem toDigitsCore_append (b f n : Nat) (ds : List Char) :
    Nat.toDigitsCore b f n ds = Nat.toDigitsCore b f n [] ++ ds := by
  induction f generalizing n ds with
  | zero => rfl
  | succ f ih =>
    simp only [Nat.toDigitsCore]
    by_cases h : n / b = 0
    · rw [if_pos h, if_pos h]
      rfl
    · rw [if_neg h, if_neg h, ih (n / b) (Nat.digitChar (n % b) :: ds),
        ih (n / b) [Nat.digitChar (n % b)]]
      simp

theorem decodeAux_append (a : Nat) (l : List Char) (c : Char) :
    decodeAux a (l ++ [c]) = 10 * decodeAux a l + decDigit c := by
  unfold decodeAux
  rw [List.foldl_append]
  rfl

theorem decDigit_digitChar (r : Nat) (h : r < 10) :
    decDigit (Nat.digitChar r) = r := by
  interval_cases r <;> rfl

theorem decodeAux_toDigitsCore (f n : Nat) (h : n < f) :
    decodeAux 0 (Nat.toDigitsCore 10 f n []) = n := by
  induction f generalizing n with
  | zero => omega
  | succ f ih =>
    simp only [Nat.toDigitsCore]
    by_cases h0 : n / 10 = 0
    · rw [if_pos h0]
      have hn : n < 10 := by omega
      show decodeAux 0 [Nat.digitChar (n % 10)] = n
      unfold decodeAux
      simp only [List.foldl_cons, List.foldl_nil, Nat.mul_zero, Nat.zero_add]
      rw [decDigit_digitChar (n % 10) (Nat.mod_lt _ (by norm_num))]
      omega
    · rw [if_neg h0, toDigitsCore_append 10 f (n / 10) [Nat.digitChar (n % 10)],
        decodeAux_append]
      have h1 : 0 < n := by
        rcases Nat.eq_zero_or_pos n with hz | hp
        · subst hz; simp at h0
        · exact hp
      have h2 : n / 10 < f := by
        have := Nat.div_lt_self h1 (by norm_num : 1 < 10)
        omega
      rw [ih (n / 10) h2, decDigit_digitChar (n % 10) (Nat.mod_lt _ (by norm_num))]
      omega

theorem Nat_repr_injective (m n : Nat) (h : Nat.repr m = Nat.repr n) :
    m = n := by
  have hd : Nat.toDigits 10 m = Nat.toDigits 10 n := by
    have hdata := congrArg String.data h
    simpa [Nat.repr, List.asString] using hdata
  have hm := decodeAux_toDigitsCore (m + 1) m (Nat.lt_succ_self m)
  have hn := decodeAux_toDigitsCore (n + 1) n (Nat.lt_succ_self n)
  unfold Nat.toDigits at hd
  rw [← hm, ← hn, hd]

theorem mem_toDigitsCore_digits (f n : Nat) (ds : List Char) (c : Char)
    (hc : c ∈ Nat.toDigitsCore 10 f n ds) :
    c ∈ ds ∨ ∃ r, r < 10 ∧ c = Nat.digitChar r := by
  induction f generalizing n ds with
  | zero =>
    simp only [Nat.toDigitsCore] at hc
    exact Or.inl hc
  | succ f ih =>
    simp only [Nat.toDigitsCore] at hc
    by_cases h0 : n / 10 = 0
    · rw [if_pos h0] at hc
      rcases List.mem_cons.mp hc with h | h
      · exact Or.inr ⟨n % 10, Nat.mod_lt _ (by norm_num), h⟩
      · exact Or.inl h
    · rw [if_neg h0] at hc
      rcases ih (n / 10) (Nat.digitChar (n % 10) :: ds) hc with h | h
      · rcases List.mem_cons.mp h with h' | h'
        · exact Or.inr ⟨n % 10, Nat.mod_lt _ (by norm_num), h'⟩
        · exact Or.inl h'
      · exact Or.inr h

theorem digitChar_ne_x (r : Nat) (h : r < 10) : Nat.digitChar r ≠ 'x' := by
  interval_cases r <;> decide

theorem x_not_mem_repr (n : Nat) : 'x' ∉ (Nat.repr n).data := by
  intro hmem
  have hx : 'x' ∈ Nat.toDigits 10 n := by
    simpa [Nat.repr, List.asString] using hmem
  unfold Nat.toDigits at hx
  rcases mem_toDigitsCore_digits (n + 1) n [] 'x' hx with h | h
  · simp at h
  · obtain ⟨r, hr, he⟩ := h
    exact digitChar_ne_x r hr he.symm

theorem append_sep_inj (l1 r1 : List Char) :
    ∀ l2 r2 : List Char, 'x' ∉ l1 → 'x' ∉ l2 →
    l1 ++ 'x' :: r1 = l2 ++ 'x' :: r2 → l1 = l2 ∧ r1 = r2 := by
  induction l1 with
  | nil =>
    intro l2 r2 _ h2 h
    cases l2 with
    | nil => simpa using h
    | cons b t2 =>
      simp only [List.nil_append, List.cons_append, List.cons.injEq] at h
      have : 'x' ∈ b :: t2 := by rw [h.1]; exact List.mem_cons_self _ _
      exact absurd this h2
  | cons a t ih =>
    intro l2 r2 h1 h2 h
    cases l2 with
    | nil =>
      simp only [List.nil_append, List.cons_append, List.cons.injEq] at h
      have : 'x' ∈ a :: t := by rw [← h.1]; exact List.mem_cons_self _ _
      exact absurd this h1
    | cons b t2 =>
      simp only [List.cons_append, List.cons.injEq] at h
      obtain ⟨hab, ht⟩ := h
      have h1' : 'x' ∉ t := fun hm => h1 (List.mem_cons_of_mem _ hm)
      have h2' : 'x' ∉ t2 := fun hm => h2 (List.mem_cons_of_mem _ hm)
      obtain ⟨he, hr⟩ := ih t2 r2 h1' h2' ht
      exact ⟨by rw [hab, he], hr⟩

theorem sizeStr_inj (w h w' h' : Nat) (he : sizeStr w h = sizeStr w' h') :
    w = w' ∧ h = h' := by
  have hd := congrArg String.data he
  simp only [sizeStr, String.data_append] at hd
  simp only [List.append_assoc, List.singleton_append] at hd
  obtain ⟨hw, hh⟩ :=
    append_sep_inj _ _ _ _ (x_not_mem_repr w) (x_not_mem_repr w') hd
  exact ⟨Nat_repr_injective _ _ (String.ext hw),
    Nat_repr_injective _ _ (String.ext hh)⟩

/-- C1: two probed files whose stream lists are identical except that one
video stream differs in width or height, or one audio stream differs in
sample_rate, make `compare_media_param` return the mismatch error message
(the files carry distinct names and well-formed probe data has pairwise
distinct stream indices). -/
theorem compare_mismatch_error (n1 n2 : String) (pre post : List StreamInfo)
    (t t' : StreamInfo) (hname : n1 ≠ n2)
    (hnodup : ((pre ++ t :: post).map StreamInfo.index).Nodup)
    (hdiff : geometryMismatch t t' ∨ sampleRateMismatch t t') :
    compare_media_param [⟨n1, pre ++ t :: post⟩, ⟨n2, pre ++ t' :: post⟩]
      = some msgMismatch := by
  have hpost : ∀ s ∈ post, s.index ≠ t.index := by
    intro s hs he
    have h1 : (t.index :: post.map StreamInfo.index).Nodup := by
      rw [List.map_append, List.map_cons] at hnodup
      exact hnodup.of_append_right
    exact (List.nodup_cons.mp h1).1
      (he ▸ List.mem_map_of_mem StreamInfo.index hs)
  have hpost' : ∀ s ∈ post, s.index ≠ t'.index := by
    have hidx : t'.index = t.index := by
      rcases hdiff with h | h
      · exact h.2.2.1
      · exact h.2.2.1
    rw [hidx]
    exact hpost
  -- the two signatures disagree at key `t.index`
  have hlk : ∃ e e' : List String,
      dictLookup (fileSig ⟨n1, pre ++ t :: post⟩) t.index = some e ∧
      dictLookup (fileSig ⟨n2, pre ++ t' :: post⟩) t.index = some e' ∧
      e ≠ e' := by
    rcases hdiff with h | h
    · obtain ⟨hv, hv', hidx, hcn, -, hwh⟩ := h
      refine ⟨[t.codec_name, sizeStr t.width t.height],
        [t'.codec_name, sizeStr t'.width t'.height],
        fileSig_lookup_video n1 pre post t hv hpost, ?_, ?_⟩
      · have := fileSig_lookup_audio
        have hl := fileSig_lookup_video n2 pre post t' hv' hpost'
        rw [hidx] at hl
        exact hl
      · intro hcon
        have hcp : t.codec_name = t'.codec_name ∧
            sizeStr t.width t.height = sizeStr t'.width t'.height := by
          simpa using hcon
        obtain ⟨hw, hh⟩ := sizeStr_inj _ _ _ _ hcp.2
        rcases hwh with hne | hne
        · exact hne hw.symm
        · exact hne hh.symm
    · obtain ⟨ha, ha', hidx, hcn, -, -, hsr⟩ := h
      refine ⟨[t.codec_name, t.sample_rate],
        [t'.codec_name, t'.sample_rate],
        fileSig_lookup_audio n1 pre post t ha hpost, ?_, ?_⟩
      · have hl := fileSig_lookup_audio n2 pre post t' ha' hpost'
        rw [hidx] at hl
        exact hl
      · intro hcon
        have hcp : t.codec_name = t'.codec_name ∧
            t.sample_rate = t'.sample_rate := by
          simpa using hcon
        exact hsr hcp.2.symm
  obtain ⟨e, e', hl1, hl2, hne⟩ := hlk
  have hdeq : dictEq (fileSig ⟨n2, pre ++ t' :: post⟩)
      (fileSig ⟨n1, pre ++ t :: post⟩) = false := by
    apply dictEq_eq_false_of_lookup hl2
      (fileSig_keys_nodup ⟨n1, pre ++ t :: post⟩)
    rw [hl1]
    intro hcon
    exact hne (by simpa using hcon)
  -- assemble the two-entry dictionary and evaluate the comparison
  have hcom : buildCom [⟨n1, pre ++ t :: post⟩, ⟨n2, pre ++ t' :: post⟩]
      = [(n1, fileSig ⟨n1, pre ++ t :: post⟩),
         (n2, fileSig ⟨n2, pre ++ t' :: post⟩)] := by
    unfold buildCom
    simp only [List.foldl_cons, List.foldl_nil, dictInsert]
    rw [if_neg hname]
  unfold compare_media_param
  rw [if_neg (by simp)]
  rw [hcom]
  show (if (([(n1, fileSig ⟨n1, pre ++ t :: post⟩),
      (n2, fileSig ⟨n2, pre ++ t' :: post⟩)]).all
        fun p => dictEq p.2 (n1, fileSig ⟨n1, pre ++ t :: post⟩).2) = true
    then (none : Option String) else some msgMismatch) = some msgMismatch
  rw [if_neg]
  simp only [List.all_cons, List.all_nil]
  rw [hdeq]
  simp

/-- C1 witness: two single-stream files equal except for the video width. -/
theorem compare_mismatch_error_witness :
    (("a" : String) ≠ "b" ∧
     ((([] : List StreamInfo) ++
        (⟨0, "video", "h264", 640, 480, ""⟩ : StreamInfo) ::
          ([] : List StreamInfo)).map StreamInfo.index).Nodup ∧
     geometryMismatch ⟨0, "video", "h264", 640, 480, ""⟩
       ⟨0, "video", "h264", 1280, 480, ""⟩) ∧
    compare_media_param
      [⟨"a", [⟨0, "video", "h264", 640, 480, ""⟩]⟩,
       ⟨"b", [⟨0, "video", "h264", 1280, 480, ""⟩]⟩] = some msgMismatch :=
  ⟨⟨by decide, by decide, rfl, rfl, rfl, rfl, rfl, Or.inl (by decide)⟩,
   compare_mismatch_error "a" "b" [] []
     ⟨0, "video", "h264", 640, 480, ""⟩ ⟨0, "video", "h264", 1280, 480, ""⟩
     (by decide) (by decide)
     (Or.inl ⟨rfl, rfl, rfl, rfl, rfl, Or.inl (by decide)⟩)⟩

/-! ## Slideshow timing lemmas -/

/-- `roundMsToSec` is a nearest-integer rounding: the rounded value, taken
back to milliseconds, is within half a second of the input. -/
theorem roundMsToSec_nearest (ms : Int) :
    (2 * (roundMsToSec ms * 1000 - ms)).natAbs ≤ 1000 := by
  unfold roundMsToSec
  have hmod := Int.fdiv_add_fmod (2 * ms + 1000) 2000
  have h0 : 0 ≤ (2 * ms + 1000).fmod 2000 := Int.fmod_nonneg' _ (by norm_num)
  have h1 : (2 * ms + 1000).fmod 2000 < 2000 :=
    Int.fmod_lt_of_pos _ (by norm_num)
  omega

theorem roundMsToSec_nonneg (ms : Int) (h : 0 ≤ ms) : 0 ≤ roundMsToSec ms := by
  unfold roundMsToSec
  apply Int.fdiv_nonneg <;> omega

/-- The decimal rendering of a positive integer is never the string "0". -/
theorem Int_repr_pos_ne_zero (d : Int) (hd : 0 < d) : Int.repr d ≠ "0" := by
  intro hcon
  match d, hd with
  | Int.ofNat n, hd =>
    have hn : n ≠ 0 := by
      intro h0
      rw [h0] at hd
      exact absurd hd (by decide)
    have hrepr : Nat.repr n = Nat.repr 0 := by
      simpa [Int.repr] using hcon
    exact hn (Nat_repr_injective _ _ hrepr)

theorem string_append_left_cancel {a s t : String} (h : a ++ s = a ++ t) :
    s = t := by
  have hd := congrArg String.data h
  simp only [String.data_append] at hd
  exact String.ext (List.append_cancel_left hd)

/-! ## Claim theorems for the slideshow timing calculator -/

/-- C2: in slideshow mode with no audio attached, or with audio attached
and the shortest policy Enabled, the returned duration is the per-image
duration times the file count, and the stored interval is the per-image
duration converted to seconds and rounded to the nearest integer. -/
theorem slideshow_duration_perimage_times_count (st : SlideState) (tl : Int)
    (_hcount : 1 ≤ st.fileCount)
    (hmode : st.audioChecked = false ∨
      (st.audioChecked = true ∧ st.shortest = ("-shortest", "Enabled"))) :
    (build_command_slideshow st tl).duration = tl * (st.fileCount : Int) ∧
    (build_command_slideshow st tl).interval = roundMsToSec tl ∧
    (2 * ((build_command_slideshow st tl).interval * 1000 - tl)).natAbs
      ≤ 1000 := by
  have hout : (build_command_slideshow st tl).duration
        = tl * (st.fileCount : Int) ∧
      (build_command_slideshow st tl).interval = roundMsToSec tl := by
    rcases hmode with h | ⟨h1, h2⟩
    · constructor <;> simp [build_command_slideshow, h]
    · constructor <;> simp [build_command_slideshow, h1, h2]
  refine ⟨hout.1, hout.2, ?_⟩
  rw [hout.2]
  exact roundMsToSec_nearest tl

/-- C2 witness: three images of one second each, no audio. -/
theorem slideshow_duration_witness :
    (1 ≤ (⟨3, false, ("", "Disabled"), 0⟩ : SlideState).fileCount ∧
     ((⟨3, false, ("", "Disabled"), 0⟩ : SlideState).audioChecked = false ∨
      ((⟨3, false, ("", "Disabled"), 0⟩ : SlideState).audioChecked = true ∧
       (⟨3, false, ("", "Disabled"), 0⟩ : SlideState).shortest
         = ("-shortest", "Enabled")))) ∧
    (build_command_slideshow ⟨3, false, ("", "Disabled"), 0⟩ 1000).duration
      = 1000 * ((3 : Nat) : Int) ∧
    (build_command_slideshow ⟨3, false, ("", "Disabled"), 0⟩ 1000).interval
      = roundMsToSec 1000 ∧
    (2 * ((build_command_slideshow ⟨3, false, ("", "Disabled"), 0⟩
      1000).interval * 1000 - 1000)).natAbs ≤ 1000 :=
  ⟨⟨by decide, Or.inl rfl⟩,
   slideshow_duration_perimage_times_count ⟨3, false, ("", "Disabled"), 0⟩
     1000 (by decide) (Or.inl rfl)⟩

/-- C4: with audio attached and the shortest policy Disabled, the returned
duration is the probed audio duration, in both slideshow and static-loop
mode, independent of the per-image duration and the file count. -/
theorem audio_disabled_duration_is_audio (st : SlideState) (tl : Int)
    (ha : st.audioChecked = true) (hs : st.shortest = ("", "Disabled")) :
    (build_command_slideshow st tl).duration = st.aDuration ∧
    (build_command_loop_image st tl).duration = st.aDuration := by
  constructor
  · simp [build_command_slideshow, ha, hs]
  · simp [build_command_loop_image, ha, hs]

/-- C4 witness: audio of 12345 ms, shortest Disabled, both modes. -/
theorem audio_disabled_duration_witness :
    ((⟨3, true, ("", "Disabled"), 12345⟩ : SlideState).audioChecked = true ∧
     (⟨3, true, ("", "Disabled"), 12345⟩ : SlideState).shortest
       = ("", "Disabled")) ∧
    (build_command_slideshow ⟨3, true, ("", "Disabled"), 12345⟩ 5000).duration
      = 12345 ∧
    (build_command_loop_image ⟨3, true, ("", "Disabled"), 12345⟩ 5000).duration
      = 12345 :=
  ⟨⟨rfl, rfl⟩,
   audio_disabled_duration_is_audio ⟨3, true, ("", "Disabled"), 12345⟩ 5000
     rfl rfl⟩

/-- C6: in static-loop mode with no audio, the returned duration is exactly
the per-image duration, never multiplied by the file count. -/
theorem loop_noaudio_duration_single (st : SlideState) (tl : Int)
    (ha : st.audioChecked = false) :
    (build_command_loop_image st tl).duration = tl := by
  simp [build_command_loop_image, ha]

/-- C6 witness: a 5000 ms static image with no audio. -/
theorem loop_noaudio_duration_witness :
    (⟨1, false, ("", "Disabled"), 0⟩ : SlideState).audioChecked = false ∧
    (build_command_loop_image ⟨1, false, ("", "Disabled"), 0⟩ 5000).duration
      = 5000 :=
  ⟨rfl, loop_noaudio_duration_single ⟨1, false, ("", "Disabled"), 0⟩ 5000 rfl⟩

/-- C8 counterexample: with a negative per-image duration the builders
still return a timing result (duration -3000 for three files at -1000 ms
each; -1000 in static-loop mode) instead of failing with any error. -/
theorem negative_duration_not_rejected :
    (build_command_slideshow ⟨3, false, ("", "Disabled"), 0⟩ (-1000)).duration
      = -3000 ∧
    (build_command_loop_image ⟨3, false, ("", "Disabled"), 0⟩ (-1000)).duration
      = -1000 := by
  constructor
  · decide
  · decide

/-- C8 (amended): the code performs no validation of negative per-image
durations; the timing result is returned with the negative value propagated
(slideshow duration = per-image × count, static-loop duration = per-image).
-/
theorem negative_duration_propagates (st : SlideState) (tl : Int)
    (_hneg : tl < 0) (ha : st.audioChecked = false) :
    (build_command_slideshow st tl).duration = tl * (st.fileCount : Int) ∧
    (build_command_loop_image st tl).duration = tl := by
  constructor
  · simp [build_command_slideshow, ha]
  · simp [build_command_loop_image, ha]

/-- C8 witness: the amended statement at -1000 ms with three files. -/
theorem negative_duration_propagates_witness :
    ((-1000 : Int) < 0 ∧
     (⟨3, false, ("", "Disabled"), 0⟩ : SlideState).audioChecked = false) ∧
    (build_command_slideshow ⟨3, false, ("", "Disabled"), 0⟩ (-1000)).duration
      = -1000 * ((3 : Nat) : Int) ∧
    (build_command_loop_image ⟨3, false, ("", "Disabled"), 0⟩ (-1000)).duration
      = -1000 :=
  ⟨⟨by decide, rfl⟩,
   negative_duration_propagates ⟨3, false, ("", "Disabled"), 0⟩ (-1000)
     (by decide) rfl⟩

/-- C9: a per-image timeline of exactly zero is replaced by one second
before any timing is computed, so it yields exactly the timing of a 1000 ms
per-image duration, in both slideshow and static-loop modes. -/
theorem zero_timeline_same_as_one_second (st : SlideState) (staticImg : Bool) :
    get_args_line st 0 staticImg = get_args_line st 1000 staticImg := by
  unfold get_args_line
  norm_num

/-- C10: for every non-negative per-image duration, the framerate fragment
written into the Preinput option is `-framerate 1/d` for a strictly
positive denominator `d` (`1/1` when the rounded interval is zero), and the
fragment `-framerate 1/0` is never produced. -/
theorem framerate_denominator_positive (st : SlideState) (tl : Int)
    (h : 0 ≤ tl) :
    (∃ loopstr : String, (build_command_slideshow st tl).preinput
        = loopstr ++ " " ++ framerateFragment (roundMsToSec tl)) ∧
    (∃ d : Int, 0 < d ∧
      framerateFragment (roundMsToSec tl) = "-framerate 1/" ++ Int.repr d) ∧
    framerateFragment (roundMsToSec tl) ≠ "-framerate 1/0" := by
  have hsec0 : 0 ≤ roundMsToSec tl := roundMsToSec_nonneg tl h
  refine ⟨?_, ?_, ?_⟩
  · by_cases ha : st.audioChecked
    · by_cases hsh : st.shortest.1 ≠ ""
      · exact ⟨"", by simp [build_command_slideshow, ha, hsh]⟩
      · exact ⟨"-loop 1 -t " ++ milliseconds2clock st.aDuration,
          by simp [build_command_slideshow, ha, hsh]⟩
    · exact ⟨"", by simp [build_command_slideshow, ha]⟩
  · by_cases hz : roundMsToSec tl = 0
    · refine ⟨1, by norm_num, ?_⟩
      unfold framerateFragment
      rw [if_pos hz]
      decide
    · refine ⟨roundMsToSec tl, lt_of_le_of_ne hsec0 (Ne.symm hz), ?_⟩
      unfold framerateFragment
      rw [if_neg hz]
  · by_cases hz : roundMsToSec tl = 0
    · unfold framerateFragment
      rw [if_pos hz]
      decide
    · unfold framerateFragment
      rw [if_neg hz]
      intro hcon
      have h0 : 0 < roundMsToSec tl := lt_of_le_of_ne hsec0 (Ne.symm hz)
      have hEq : "-framerate 1/" ++ Int.repr (roundMsToSec tl)
          = "-framerate 1/" ++ "0" := by
        rw [hcon]
        decide
      exact Int_repr_pos_ne_zero _ h0 (string_append_left_cancel hEq)

/-- C10 witness: one second per image, no audio, three files. -/
theorem framerate_denominator_witness :
    (0 : Int) ≤ 1000 ∧
    ((∃ loopstr : String,
        (build_command_slideshow ⟨3, false, ("", "Disabled"), 0⟩
          1000).preinput
          = loopstr ++ " " ++ framerateFragment (roundMsToSec 1000)) ∧
     (∃ d : Int, 0 < d ∧
       framerateFragment (roundMsToSec 1000)
         = "-framerate 1/" ++ Int.repr d) ∧
     framerateFragment (roundMsToSec 1000) ≠ "-framerate 1/0") :=
  ⟨by decide,
   framerate_denominator_positive ⟨3, false, ("", "Disabled"), 0⟩ 1000
     (by decide)⟩

